import Mathlib

/-!
Verification of the GA4 pipeline SQL-generation helpers.

The definitions below are shallow embeddings of the JavaScript helper
modules (`includes/helper.js`, `includes/sql_generators.js`,
`definitions/declarations.js`, `includes/client_config.js`).
-/

/-- A declared GA4 parameter specification (one entry of
`CORE_PARAMS_ARRAY` / `WEB_PARAMS_ARRAY` / `APP_PARAMS_ARRAY` /
`CUSTOM_PARAMS_ARRAY`). -/
structure Param where
  name : String
  type : String
  consolidated_name : Option String := none
deriving DecidableEq, Repr

/-- JavaScript truthiness of a string-or-absent value: `undefined`/`null`
and the empty string are falsy. -/
def truthyS (o : Option String) : Bool :=
  !(o.getD "" = "")

/-- JavaScript truthiness of a boolean-or-absent value (`undefined` is falsy). -/
def truthyB (o : Option Bool) : Bool :=
  o.getD false

/-- One stream entry inside a property of `PROPERTIES_CONFIG`. -/
structure StreamCfg where
  include_flag : Option Bool := none
  stream_type : String
  use_fresh_daily : Option Bool := none
deriving DecidableEq, Repr

/-- One property of `PROPERTIES_CONFIG`: its source dataset and the stream
map (a JavaScript object, modelled as an insertion-ordered association
list). -/
structure PropertyCfg where
  source_dataset : String
  streams : List (String × StreamCfg)
deriving DecidableEq, Repr

/-- The merged configuration object produced by `getConfig()`, restricted to
the settings the helpers under verification read. -/
structure Config where
  PROPERTIES_CONFIG : Option (List (String × PropertyCfg)) := none
  DATA_STREAM_TYPE : String := "web"
  CONSOLIDATE_WEB_APP_PARAMS : Bool := false
  USE_FRESH_DAILY : Bool := false
  CORE_PARAMS_ARRAY : List Param := []
  WEB_PARAMS_ARRAY : List Param := []
  APP_PARAMS_ARRAY : List Param := []
  CUSTOM_PARAMS_ARRAY : List Param := []
  BACKFILL_START_DATE : Option String := none
  BACKFILL_END_DATE : Option String := none
deriving DecidableEq, Repr

/-- The stream descriptors pushed by `getIncludedStreams`.  Simple mode
produces one object with only `simple_mode`, `stream_type` and
`use_fresh_daily`; advanced mode fills the property metadata. -/
structure IncludedStream where
  simple_mode : Bool := false
  property_name : Option String := none
  stream_id : Option String := none
  source_dataset : Option String := none
  stream_type : String
  use_fresh_daily : Bool
deriving DecidableEq, Repr

/-- `helper.js` `isAdvancedMode`: advanced iff `PROPERTIES_CONFIG` is
neither `null` nor `undefined`. -/
def isAdvancedMode (cfg : Config) : Bool :=
  cfg.PROPERTIES_CONFIG.isSome

/-- `helper.js` `getIncludedStreams` (lines 27–54): in simple mode a single
synthetic stream; in advanced mode every stream of every property whose
`include` is not explicitly `false`, with `use_fresh_daily` defaulted to
the global `USE_FRESH_DAILY` when the stream does not declare it. -/
def getIncludedStreams (cfg : Config) : List IncludedStream :=
  match cfg.PROPERTIES_CONFIG with
  | none =>
      [{ simple_mode := true
         stream_type := cfg.DATA_STREAM_TYPE
         use_fresh_daily := cfg.USE_FRESH_DAILY }]
  | some props =>
      props.flatMap fun pe =>
        (pe.2.streams.filter fun se => se.2.include_flag ≠ some false).map fun se =>
          { property_name := some pe.1
            stream_id := some se.1
            stream_type := se.2.stream_type
            source_dataset := some pe.2.source_dataset
            use_fresh_daily :=
              match se.2.use_fresh_daily with
              | some b => b
              | none => cfg.USE_FRESH_DAILY }

/-- `helper.js` `getEffectiveDataStreamType` (lines 60–74). -/
def getEffectiveDataStreamType (cfg : Config) : String :=
  match cfg.PROPERTIES_CONFIG with
  | none => cfg.DATA_STREAM_TYPE
  | some _ =>
      let streams := getIncludedStreams cfg
      let hasWeb := streams.any fun s => s.stream_type = "web"
      let hasApp := streams.any fun s => s.stream_type = "app"
      if hasWeb && hasApp then "both"
      else if hasWeb then "web"
      else if hasApp then "app"
      else "both"

/-- `helper.js` `shouldConsolidateParams` (lines 80–83). -/
def shouldConsolidateParams (cfg : Config) : Bool :=
  getEffectiveDataStreamType cfg = "both" && cfg.CONSOLIDATE_WEB_APP_PARAMS

/-- `declarations.js` (lines 27–29): a property declares the fresh source
table iff some of its streams resolves `use_fresh_daily` to `true` (the
per-stream value when declared, the global `USE_FRESH_DAILY` otherwise). -/
def propertyUsesFreshDaily (cfg : Config) (property : PropertyCfg) : Bool :=
  property.streams.any fun se =>
    match se.2.use_fresh_daily with
    | some b => b
    | none => cfg.USE_FRESH_DAILY

/-- Rendered field lookup, mirroring the template literal of
`extractParamsSQL`. -/
def paramFieldExpr (sourceArray : String) (p : Param) (valueField : String) : String :=
  "(SELECT value." ++ valueField ++ " FROM UNNEST(" ++ sourceArray ++
    ") WHERE key = '" ++ p.name ++ "') AS " ++ p.name

/-- ASCII case folding of a character, as `String.prototype.toLowerCase`
performs on the ASCII range (the only range appearing in declared types). -/
def lowerChar (c : Char) : Char :=
  if 'A' ≤ c && c ≤ 'Z' then Char.ofNat (c.toNat + 32) else c

/-- `String.prototype.toLowerCase`, restricted to ASCII case folding. -/
def jsToLowerCase (s : String) : String :=
  ⟨s.data.map lowerChar⟩

/-- The `switch(param.type.toLowerCase())` of `extractParamsSQL`: the value
slot for a declared type, or `none` for the `default:` (throwing) arm. -/
def valueFieldFor (t : String) : Option String :=
  let l := jsToLowerCase t
  if l = "string" then some "string_value"
  else if l = "int" || l = "integer" then some "int_value"
  else if l = "float" || l = "double" then some "double_value"
  else none

/-- `helper.js` `extractParamsSQL` (lines 233–255), before the final
`join`: the `Array.prototype.map` body applied left to right, where the
`throw` of the `default:` arm aborts the whole call with the thrown
message. -/
def extractParamsSQLList (paramsArray : List Param) (sourceArray : String) :
    Except String (List String) :=
  match paramsArray with
  | [] => Except.ok []
  | p :: rest =>
      match valueFieldFor p.type with
      | none =>
          Except.error ("Unsupported parameter type: " ++ p.type ++
            " for parameter: " ++ p.name)
      | some vf =>
          (extractParamsSQLList rest sourceArray).map fun tail =>
            paramFieldExpr sourceArray p vf :: tail

/-- `helper.js` `extractParamsSQL`: the joined result. -/
def extractParamsSQL (paramsArray : List Param) (sourceArray : String) :
    Except String String :=
  (extractParamsSQLList paramsArray sourceArray).map
    (String.intercalate ",\n        ")

example : extractParamsSQL [⟨"form_name", "string", none⟩] "event_params" =
    Except.ok "(SELECT value.string_value FROM UNNEST(event_params) WHERE key = 'form_name') AS form_name" := by
  rfl

/-- The `{ web: ..., app: ... }` record stored per consolidated name by
`CONSOLIDATE_PARAMS`. -/
structure ConsolSources where
  web : Option String := none
  app : Option String := none
deriving DecidableEq, Repr

/-- Update one side of a `ConsolSources` record. -/
def updSide (isWeb : Bool) (s : ConsolSources) (v : String) : ConsolSources :=
  if isWeb then { s with web := some v } else { s with app := some v }

/-- The body of the two `forEach` loops of `CONSOLIDATE_PARAMS`: on a
JavaScript object (insertion-ordered association list), create the key
with `{ web: null, app: null }` if absent, then assign the given side.
A fresh key is appended at the end, as JavaScript object insertion does. -/
def setSide (isWeb : Bool) (m : List (String × ConsolSources)) (k v : String) :
    List (String × ConsolSources) :=
  match m with
  | [] => [(k, updSide isWeb {} v)]
  | e :: rest =>
      if e.1 = k then (e.1, updSide isWeb e.2 v) :: rest
      else e :: setSide isWeb rest k v

/-- One `forEach` step of `CONSOLIDATE_PARAMS`: only parameters with a
truthy `consolidated_name` touch the map. -/
def consolStep (isWeb : Bool) (m : List (String × ConsolSources)) (p : Param) :
    List (String × ConsolSources) :=
  if truthyS p.consolidated_name then
    setSide isWeb m (p.consolidated_name.getD "") p.name
  else m

/-- `helper.js` `CONSOLIDATE_PARAMS` (lines 311–329): the
`consolidationMap` after the web pass and then the app pass. -/
def buildConsolidationMap (cfg : Config) : List (String × ConsolSources) :=
  cfg.APP_PARAMS_ARRAY.foldl (consolStep false)
    (cfg.WEB_PARAMS_ARRAY.foldl (consolStep true) [])

/-- `helper.js` `CONSOLIDATE_PARAMS` (lines 331–339): rendering of one
consolidation entry — the web source first, then the app source, each
pushed only when truthy. -/
def renderConsolidation (e : String × ConsolSources) : String :=
  let fields :=
    (if truthyS e.2.web then [e.2.web.getD ""] else []) ++
      (if truthyS e.2.app then [e.2.app.getD ""] else [])
  "COALESCE(" ++ String.intercalate ", " fields ++ ") AS " ++ e.1

/-- `helper.js` `CONSOLIDATE_PARAMS` (lines 304–342). -/
def CONSOLIDATE_PARAMS (cfg : Config) : String :=
  if getEffectiveDataStreamType cfg ≠ "both" || !cfg.CONSOLIDATE_WEB_APP_PARAMS then ""
  else
    String.intercalate ",\n        "
      ((buildConsolidationMap cfg).map renderConsolidation)

/-- A component of the event identity key, by syntactic shape.  `render`
below produces exactly the strings pushed by `GENERATE_EVENT_KEY_CONCAT`. -/
inductive KeyComp where
  | coalesceStr (f : String)
  | coalesceCast (f : String)
  | castStr (f : String)
  | bare (f : String)
deriving DecidableEq, Repr

/-- The SQL text of one key component, matching the template literals of
`GENERATE_EVENT_KEY_CONCAT` character for character. -/
def KeyComp.render : KeyComp → String
  | .coalesceStr f => "COALESCE(" ++ f ++ ", '')"
  | .coalesceCast f => "COALESCE(CAST(" ++ f ++ " AS STRING), '')"
  | .castStr f => "CAST(" ++ f ++ " AS STRING)"
  | .bare f => f

/-- The fixed leading components of `GENERATE_EVENT_KEY_CONCAT`
(`sql_generators.js` lines 328–336): the four identity fields and the
three diagnostic dedup fields. -/
def keyBaseFields : List KeyComp :=
  [ .coalesceStr "user_id"
  , .coalesceCast "ga_session_id"
  , .castStr "event_timestamp"
  , .bare "event_name"
  , .coalesceCast "event_server_timestamp_offset"
  , .coalesceCast "batch_event_index"
  , .coalesceCast "event_bundle_sequence_id" ]

/-- A JavaScript `Set.add`: keeps the first occurrence, appends unseen
elements at the end. -/
def insertUnique (l : List String) (x : String) : List String :=
  if x ∈ l then l else l ++ [x]

/-- Insertion-order deduplication, the iteration order of a JavaScript
`Set` built by adding the given elements left to right. -/
def setInsertionOrder (xs : List String) : List String :=
  xs.foldl insertUnique []

/-- One web-pass step of the consolidated branch of
`GENERATE_EVENT_KEY_CONCAT`: add a truthy `consolidated_name` to the set. -/
def keyNameStep (s : List String) (p : Param) : List String :=
  if truthyS p.consolidated_name then insertUnique s (p.consolidated_name.getD "")
  else s

/-- One app-pass step of the consolidated branch of
`GENERATE_EVENT_KEY_CONCAT`: a truthy `consolidated_name` goes to the set,
anything else is pushed onto the field list. -/
def keyAppStep (sf : List String × List KeyComp) (p : Param) :
    List String × List KeyComp :=
  if truthyS p.consolidated_name then
    (insertUnique sf.1 (p.consolidated_name.getD ""), sf.2)
  else
    (sf.1, sf.2 ++ [.coalesceCast p.name])

/-- Push step used by the plain `forEach` loops of
`GENERATE_EVENT_KEY_CONCAT` (core, separate web/app, custom). -/
def keyPushStep (fs : List KeyComp) (p : Param) : List KeyComp :=
  fs ++ [.coalesceCast p.name]

/-- `sql_generators.js` `GENERATE_EVENT_KEY_CONCAT` (lines 325–382),
before the final `join`: the accumulated `fields` array. -/
def keyConcatFields (cfg : Config) : List KeyComp :=
  let effectiveType := getEffectiveDataStreamType cfg
  let fields := keyBaseFields
  let fields := cfg.CORE_PARAMS_ARRAY.foldl keyPushStep fields
  let fields :=
    if effectiveType = "both" && cfg.CONSOLIDATE_WEB_APP_PARAMS then
      let consolidatedNames := cfg.WEB_PARAMS_ARRAY.foldl keyNameStep []
      let sf := cfg.APP_PARAMS_ARRAY.foldl keyAppStep (consolidatedNames, fields)
      sf.2 ++ sf.1.map KeyComp.coalesceStr
    else
      let fields :=
        if effectiveType = "web" || effectiveType = "both" then
          cfg.WEB_PARAMS_ARRAY.foldl keyPushStep fields
        else fields
      if effectiveType = "app" || effectiveType = "both" then
        cfg.APP_PARAMS_ARRAY.foldl keyPushStep fields
      else fields
  cfg.CUSTOM_PARAMS_ARRAY.foldl keyPushStep fields

/-- `sql_generators.js` `GENERATE_EVENT_KEY_CONCAT`: the final
`fields.join(", '-', ")`. -/
def GENERATE_EVENT_KEY_CONCAT (cfg : Config) : String :=
  String.intercalate ", '-', " ((keyConcatFields cfg).map KeyComp.render)

/-- Evaluation of one key component against an event record (a partial map
from field name to SQL string value, `none` denoting SQL `NULL`): SQL
`COALESCE(x, '')` yields the empty string on `NULL`, `CAST(x AS STRING)`
of `NULL` is `NULL`, and a bare field is looked up directly. -/
def evalKeyComp (record : String → Option String) : KeyComp → Option String
  | .coalesceStr f => some ((record f).getD "")
  | .coalesceCast f => some ((record f).getD "")
  | .castStr f => record f
  | .bare f => record f

/-- A proleptic Gregorian calendar day (year ≥ 1 in all uses). -/
structure Date where
  y : Nat
  m : Nat
  d : Nat
deriving DecidableEq, Repr

/-- Gregorian leap year. -/
def isLeapYear (y : Nat) : Bool :=
  y % 4 = 0 && (y % 100 ≠ 0 || y % 400 = 0)

/-- Days in a Gregorian month. -/
def daysInMonth (y m : Nat) : Nat :=
  if m = 2 then (if isLeapYear y then 29 else 28)
  else if m = 4 || m = 6 || m = 9 || m = 11 then 30
  else 31

/-- Serial day number of a date (days since 0000-03-01, standard
days-from-civil computation, valid for year ≥ 1). -/
def Date.toSerial (dt : Date) : Nat :=
  let y := if dt.m ≤ 2 then dt.y - 1 else dt.y
  let era := y / 400
  let yoe := y % 400
  let mp := (dt.m + 9) % 12
  let doy := (153 * mp + 2) / 5 + dt.d - 1
  let doe := yoe * 365 + yoe / 4 - yoe / 100 + doy
  era * 146097 + doe

/-- Date of a serial day number (inverse of `Date.toSerial` on valid
dates). -/
def Date.ofSerial (z : Nat) : Date :=
  let era := z / 146097
  let doe := z % 146097
  let yoe := (doe - doe / 1460 + doe / 36524 - doe / 146096) / 365
  let y := yoe + era * 400
  let doy := doe - (365 * yoe + yoe / 4 - yoe / 100)
  let mp := (5 * doy + 2) / 153
  let d := doy - (153 * mp + 2) / 5 + 1
  let m := if mp < 10 then mp + 3 else mp - 9
  ⟨if m ≤ 2 then y + 1 else y, m, d⟩

/-- The date `n` calendar days before `dt` (BigQuery
`DATE_SUB(dt, INTERVAL n DAY)`). -/
def subDays (dt : Date) (n : Nat) : Date :=
  Date.ofSerial (dt.toSerial - n)

/-- The date `n` months before `dt` (BigQuery
`DATE_SUB(dt, INTERVAL n MONTH)`), clamping the day of month. -/
def subMonths (dt : Date) (n : Nat) : Date :=
  let total := dt.y * 12 + (dt.m - 1) - n
  let y := total / 12
  let m := total % 12 + 1
  ⟨y, m, min dt.d (daysInMonth y m)⟩

/-- Left-pad a numeral with zeros to the given width. -/
def padNum (width n : Nat) : String :=
  let s := toString n
  String.mk (List.replicate (width - s.length) '0') ++ s

/-- BigQuery `FORMAT_DATE('%Y%m%d', dt)`. -/
def formatYYYYMMDD (dt : Date) : String :=
  padNum 4 dt.y ++ padNum 2 dt.m ++ padNum 2 dt.d

example : subDays ⟨2025, 3, 10⟩ 2 = ⟨2025, 3, 8⟩ := by decide
example : subDays ⟨2025, 3, 1⟩ 1 = ⟨2025, 2, 28⟩ := by decide
example : subDays ⟨2024, 3, 1⟩ 1 = ⟨2024, 2, 29⟩ := by decide
example : subDays ⟨2025, 1, 1⟩ 1 = ⟨2024, 12, 31⟩ := by decide
example : subMonths ⟨2025, 3, 10⟩ 13 = ⟨2024, 2, 10⟩ := by decide
example : subMonths ⟨2025, 3, 31⟩ 1 = ⟨2025, 2, 28⟩ := by decide
example : formatYYYYMMDD ⟨2024, 2, 10⟩ = "20240210" := by decide

/-- `helper.js` `GET_BACKFILL_START_DATE` (lines 637–642): the configured
date when truthy, otherwise the literal SQL default expression. -/
def GET_BACKFILL_START_DATE (cfg : Config) : String :=
  if truthyS cfg.BACKFILL_START_DATE then cfg.BACKFILL_START_DATE.getD ""
  else "FORMAT_DATE('%Y%m%d', DATE_SUB(CURRENT_DATE(), INTERVAL 13 MONTH))"

/-- `helper.js` `GET_BACKFILL_END_DATE` (lines 644–649). -/
def GET_BACKFILL_END_DATE (cfg : Config) : String :=
  if truthyS cfg.BACKFILL_END_DATE then cfg.BACKFILL_END_DATE.getD ""
  else "FORMAT_DATE('%Y%m%d', DATE_SUB(CURRENT_DATE(), INTERVAL 1 DAY))"

/-- Interpretation of the strings returned by the backfill date helpers at
a fixed evaluation date: the two SQL default expressions evaluate to the
formatted derived date, while a literal `YYYYMMDD` string denotes itself. -/
def evalBackfillSQL (today : Date) (s : String) : String :=
  if s = "FORMAT_DATE('%Y%m%d', DATE_SUB(CURRENT_DATE(), INTERVAL 13 MONTH))" then
    formatYYYYMMDD (subMonths today 13)
  else if s = "FORMAT_DATE('%Y%m%d', DATE_SUB(CURRENT_DATE(), INTERVAL 1 DAY))" then
    formatYYYYMMDD (subDays today 1)
  else s

/-- Which source partition a planned day reads. -/
inductive SourceKind where
  | fresh
  | finalized
  | excluded_intraday
deriving DecidableEq, Repr

/-- One entry of a refresh plan. -/
structure RefreshPlanEntry where
  calendar_day : Date
  in_scope : Bool
  source_kind : SourceKind
deriving DecidableEq, Repr

/-- Modelled from the spec: the rolling-refresh / backfill / initial-load
planner of `base_events.sqlx` (the incremental date-filter logic of the
warehouse model), which is not among the provided source files.  Per spec
§4.5: backfill (when active) covers the inclusive configured range, all
days finalized; otherwise the window is the most recent
`initialLoadDays` / `rollingWindowDays` days ending today, the most
recent day always reads the finalized source, and every other in-window
day reads the fresh source iff `useFreshDaily` is enabled; an invalid
window is a configuration error produced before any entries. -/
def RefreshWindowPlanner_plan (today : Date) (rollingWindowDays : Nat)
    (useFreshDaily : Bool) (backfill : Option (Date × Date))
    (initialLoad : Bool) (initialLoadDays : Nat) :
    Except String (List RefreshPlanEntry) :=
  match backfill with
  | some r =>
      if r.1.toSerial > r.2.toSerial then
        Except.error "ConfigurationError: backfill start after end"
      else
        Except.ok (((List.range (r.2.toSerial + 1 - r.1.toSerial)).map
          fun i => Date.ofSerial (r.1.toSerial + i)).map
            fun day => ⟨day, true, .finalized⟩)
  | none =>
      let w := if initialLoad then initialLoadDays else rollingWindowDays
      if w = 0 then Except.error "ConfigurationError: invalid window"
      else
        Except.ok ((List.range w).map fun i =>
          let day := subDays today (w - 1 - i)
          ⟨day, true,
            if day = today then .finalized
            else if useFreshDaily then .fresh
            else .finalized⟩)

/-- The truthy `consolidated_name` of a parameter, if any (the condition
guarding every `consolidated_name` use in the source). -/
def truthyName (p : Param) : Option String :=
  if truthyS p.consolidated_name then some (p.consolidated_name.getD "") else none

/-- The name of the last parameter of `side` declaring `c` as its
consolidated name — the value left in a consolidation-map slot after the
source's `forEach` pass, where later assignments overwrite earlier ones. -/
def lastSource : List Param → String → Option String
  | [], _ => none
  | p :: ps, c =>
      match lastSource ps c with
      | some v => some v
      | none => if truthyName p = some c then some p.name else none

/-- `extendKeys ks ps`: the key set after adding every truthy consolidated
name of `ps`, starting from `ks` (JavaScript `Set`: first occurrence
wins, new names appended). -/
def extendKeys (ks : List String) (ps : List Param) : List String :=
  ps.foldl keyNameStep ks

/-- The distinct consolidated names declared across the web and app
parameter arrays, in first-declaration order (web array first). -/
def consolidatedNamesList (cfg : Config) : List String :=
  setInsertionOrder
    (cfg.WEB_PARAMS_ARRAY.filterMap truthyName ++
      cfg.APP_PARAMS_ARRAY.filterMap truthyName)

/-- The claim-side value-slot mapping: string-typed parameters read the
string slot, integer-typed the integer slot, floating-point-typed the
floating-point slot. -/
def slotFor (t : String) : String :=
  if jsToLowerCase t = "string" then "string_value"
  else if jsToLowerCase t = "int" || jsToLowerCase t = "integer" then "int_value"
  else "double_value"

/-- A declared type the generator supports. -/
def supportedType (t : String) : Bool :=
  jsToLowerCase t = "string" || jsToLowerCase t = "int" ||
    jsToLowerCase t = "integer" || jsToLowerCase t = "float" ||
    jsToLowerCase t = "double"

/-- The claim-side per-stream `use_fresh_daily` resolution rule: the
stream's own declaration when present, the global setting otherwise. -/
def resolveFreshDaily (cfg : Config) (s : StreamCfg) : Bool :=
  match s.use_fresh_daily with
  | some b => b
  | none => cfg.USE_FRESH_DAILY

/-- The claim-side web/app segment of the identity key: separate web-then-
app catalog-order components when not consolidating; under consolidation,
the non-consolidating app parameters in catalog order followed by the
distinct consolidated fields in first-declaration order. -/
def webAppKeySegment (cfg : Config) : List KeyComp :=
  if shouldConsolidateParams cfg then
    (cfg.APP_PARAMS_ARRAY.filter fun p => !truthyS p.consolidated_name).map
        (fun p => .coalesceCast p.name) ++
      (consolidatedNamesList cfg).map KeyComp.coalesceStr
  else
    (if getEffectiveDataStreamType cfg = "web" || getEffectiveDataStreamType cfg = "both" then
      cfg.WEB_PARAMS_ARRAY.map fun p => KeyComp.coalesceCast p.name
    else []) ++
    (if getEffectiveDataStreamType cfg = "app" || getEffectiveDataStreamType cfg = "both" then
      cfg.APP_PARAMS_ARRAY.map fun p => KeyComp.coalesceCast p.name
    else [])

/-- The claim-side component order of the identity key: the four identity
fields, the three diagnostic dedup fields, the core parameters in catalog
order, the web/app segment per the consolidate flag, the custom
parameters in catalog order. -/
def keyOrderSpec (cfg : Config) : List KeyComp :=
  keyBaseFields ++
    (cfg.CORE_PARAMS_ARRAY.map fun p => KeyComp.coalesceCast p.name) ++
    webAppKeySegment cfg ++
    (cfg.CUSTOM_PARAMS_ARRAY.map fun p => KeyComp.coalesceCast p.name)

/-- Whether `needle` matches a leading segment of `hay`. -/
def leadMatch : List Char → List Char → Bool
  | [], _ => true
  | _ :: _, [] => false
  | a :: as, b :: bs => a = b && leadMatch as bs

/-- Whether `needle` occurs contiguously inside `hay`. -/
def subListOf (needle hay : List Char) : Bool :=
  match hay with
  | [] => leadMatch needle []
  | _ :: t => leadMatch needle hay || subListOf needle t

/-- Whether the string `needle` occurs inside the string `hay`. -/
def strHasSub (needle hay : String) : Bool :=
  subListOf needle.data hay.data

/-- Concrete parameter fixture covering the three supported value slots. -/
def paramsThreeTypes : List Param :=
  [⟨"form_name", "string", none⟩, ⟨"engagement_time_msec", "INT", none⟩,
   ⟨"score", "double", none⟩]

/-- Concrete advanced-mode property fixture: one web stream declaring
`use_fresh_daily = false`, one app stream with no declaration. -/
def propsTwoStreams : List (String × PropertyCfg) :=
  [("p1", { source_dataset := "ds1",
            streams := [("s1", { include_flag := none, stream_type := "web",
                                 use_fresh_daily := some false }),
                        ("s2", { include_flag := none, stream_type := "app",
                                 use_fresh_daily := none })] })]

/-- Concrete advanced-mode configuration fixture around
`propsTwoStreams`, with the global fresh-daily flag enabled. -/
def cfgTwoStreams : Config :=
  { PROPERTIES_CONFIG := some propsTwoStreams, USE_FRESH_DAILY := true }

/-- Concrete dual-stream configuration fixture with consolidation enabled:
two shared consolidated names, one app-only consolidated name, and
non-consolidating parameters on both sides (after the client catalog). -/
def cfgConsolidate : Config :=
  { DATA_STREAM_TYPE := "both",
    CONSOLIDATE_WEB_APP_PARAMS := true,
    CORE_PARAMS_ARRAY := [⟨"ga_session_number", "int", none⟩],
    WEB_PARAMS_ARRAY :=
      [⟨"link_text", "string", none⟩,
       ⟨"page_location", "string", some "screen_location"⟩,
       ⟨"page_referrer", "string", some "screen_referrer"⟩],
    APP_PARAMS_ARRAY :=
      [⟨"firebase_conversion", "int", none⟩,
       ⟨"firebase_screen", "string", some "screen_location"⟩,
       ⟨"firebase_previous_screen", "string", some "screen_referrer"⟩,
       ⟨"firebase_screen_class", "string", some "screen_title"⟩],
    CUSTOM_PARAMS_ARRAY := [⟨"blog_word_count", "int", none⟩] }

/-- Concrete web-only configuration fixture for identity-key evaluation. -/
def cfgKeyFix : Config :=
  { DATA_STREAM_TYPE := "web",
    CORE_PARAMS_ARRAY := [⟨"ga_session_number", "int", none⟩],
    WEB_PARAMS_ARRAY := [⟨"page_location", "string", none⟩],
    CUSTOM_PARAMS_ARRAY := [] }

/-- Concrete event record fixture: timestamp and name present, everything
else null. -/
def recBase : String → Option String := fun g =>
  if g = "event_timestamp" then some "1700000000"
  else if g = "event_name" then some "page_view"
  else none

/-- `recBase` with a non-null `page_location`. -/
def recWithLocation : String → Option String := fun g =>
  if g = "page_location" then some "https://example.com/" else recBase g

/-- `recBase` with an explicitly null `page_location`. -/
def recNullLocation : String → Option String := fun g =>
  if g = "page_location" then none else recBase g

/-- C2: whenever the effective stream type is not `both`, the resolved
consolidate decision is `false` and the consolidation generator emits
nothing, even if the raw `CONSOLIDATE_WEB_APP_PARAMS` flag is `true`. -/
theorem consolidate_forced_off_when_not_both (cfg : Config)
    (h : getEffectiveDataStreamType cfg ≠ "both") :
    shouldConsolidateParams cfg = false ∧ CONSOLIDATE_PARAMS cfg = "" := by
  constructor
  · simp [shouldConsolidateParams, h]
  · simp [CONSOLIDATE_PARAMS, h]

/-- Witness for C2 at a concrete web-only configuration whose raw
consolidate flag is `true`. -/
theorem consolidate_forced_off_when_not_both_witness :
    shouldConsolidateParams
        { DATA_STREAM_TYPE := "web", CONSOLIDATE_WEB_APP_PARAMS := true,
          WEB_PARAMS_ARRAY := [⟨"page_location", "string", some "screen_location"⟩],
          APP_PARAMS_ARRAY := [⟨"firebase_screen", "string", some "screen_location"⟩] } = false ∧
      CONSOLIDATE_PARAMS
        { DATA_STREAM_TYPE := "web", CONSOLIDATE_WEB_APP_PARAMS := true,
          WEB_PARAMS_ARRAY := [⟨"page_location", "string", some "screen_location"⟩],
          APP_PARAMS_ARRAY := [⟨"firebase_screen", "string", some "screen_location"⟩] } = "" :=
  consolidate_forced_off_when_not_both _ (by decide)

/-- C7: in rolling-refresh mode (no backfill, no initial load) with a
3-day window and fresh-daily enabled, the plan for today = 2025-03-10 has
exactly the three days 2025-03-08..2025-03-10, the most recent day
reading the finalized source and the other two the fresh source. -/
theorem rolling_plan_three_day_window :
    RefreshWindowPlanner_plan ⟨2025, 3, 10⟩ 3 true none false 7 =
      Except.ok
        [ ⟨⟨2025, 3, 8⟩, true, SourceKind.fresh⟩
        , ⟨⟨2025, 3, 9⟩, true, SourceKind.fresh⟩
        , ⟨⟨2025, 3, 10⟩, true, SourceKind.finalized⟩ ] := by
  rfl

/-- C9: the backfill date helpers return the configured date unchanged
when one is set, and otherwise return the SQL default expression, which
evaluates at any reference date to 13 months before it (start) and one
day before it (end). -/
theorem backfill_date_defaults (cfg : Config) (today : Date) :
    (cfg.BACKFILL_START_DATE = none →
      evalBackfillSQL today (GET_BACKFILL_START_DATE cfg) =
        formatYYYYMMDD (subMonths today 13)) ∧
    (cfg.BACKFILL_END_DATE = none →
      evalBackfillSQL today (GET_BACKFILL_END_DATE cfg) =
        formatYYYYMMDD (subDays today 1)) ∧
    (∀ s : String, s ≠ "" → cfg.BACKFILL_START_DATE = some s →
      GET_BACKFILL_START_DATE cfg = s) ∧
    (∀ s : String, s ≠ "" → cfg.BACKFILL_END_DATE = some s →
      GET_BACKFILL_END_DATE cfg = s) := by
  refine ⟨fun h => ?_, fun h => ?_, fun s hs hc => ?_, fun s hs hc => ?_⟩
  · simp [GET_BACKFILL_START_DATE, truthyS, h, evalBackfillSQL]
  · simp [GET_BACKFILL_END_DATE, truthyS, h, evalBackfillSQL]
  · simp [GET_BACKFILL_START_DATE, truthyS, hc, hs]
  · simp [GET_BACKFILL_END_DATE, truthyS, hc, hs]

/-- Witness for C9 at today = 2025-03-10: the defaults evaluate to
2024-02-10 and 2025-03-09, and a configured start date is passed through. -/
theorem backfill_date_defaults_witness :
    evalBackfillSQL ⟨2025, 3, 10⟩ (GET_BACKFILL_START_DATE {}) = "20240210" ∧
    evalBackfillSQL ⟨2025, 3, 10⟩ (GET_BACKFILL_END_DATE {}) = "20250309" ∧
    GET_BACKFILL_START_DATE { BACKFILL_START_DATE := some "20240101" } = "20240101" := by
  refine ⟨?_, ?_, ?_⟩
  · rw [(backfill_date_defaults {} ⟨2025, 3, 10⟩).1 rfl]; decide
  · rw [(backfill_date_defaults {} ⟨2025, 3, 10⟩).2.1 rfl]; decide
  · exact (backfill_date_defaults { BACKFILL_START_DATE := some "20240101" }
      ⟨2025, 3, 10⟩).2.2.1 "20240101" (by decide) rfl

/-- C10: in advanced mode every included stream lacking its own
`use_fresh_daily` gets the global `USE_FRESH_DAILY`, a declared per-stream
value (including `false`) overrides the global, and the per-property
fresh-table declaration decision applies the same defaulting rule. -/
theorem use_fresh_daily_defaulting (cfg : Config)
    (props : List (String × PropertyCfg)) (hp : cfg.PROPERTIES_CONFIG = some props) :
    (∀ pe ∈ props, ∀ se ∈ pe.2.streams, se.2.include_flag ≠ some false →
      ({ simple_mode := false, property_name := some pe.1, stream_id := some se.1,
         source_dataset := some pe.2.source_dataset, stream_type := se.2.stream_type,
         use_fresh_daily := resolveFreshDaily cfg se.2 } : IncludedStream) ∈
        getIncludedStreams cfg) ∧
    (∀ property : PropertyCfg,
      propertyUsesFreshDaily cfg property =
        property.streams.any fun se => resolveFreshDaily cfg se.2) ∧
    (∀ s : StreamCfg, ∀ b : Bool, s.use_fresh_daily = some b →
      resolveFreshDaily cfg s = b) ∧
    (∀ s : StreamCfg, s.use_fresh_daily = none →
      resolveFreshDaily cfg s = cfg.USE_FRESH_DAILY) := by
  refine ⟨?_, ?_, ?_, ?_⟩
  · intro pe hpe se hse hinc
    simp only [getIncludedStreams, hp]
    refine List.mem_flatMap.mpr ⟨pe, hpe, ?_⟩
    refine List.mem_map.mpr ⟨se, List.mem_filter.mpr ⟨hse, decide_eq_true hinc⟩, rfl⟩
  · intro property; rfl
  · intro s b h; simp [resolveFreshDaily, h]
  · intro s h; simp [resolveFreshDaily, h]

/-- Witness for C10 at a concrete two-stream property: the stream without
a declaration inherits the global `true`, the stream declaring `false`
keeps `false`. -/
theorem use_fresh_daily_defaulting_witness :
    ({ simple_mode := false, property_name := some "p1", stream_id := some "s2",
       source_dataset := some "ds1", stream_type := "app",
       use_fresh_daily := true } : IncludedStream) ∈
      getIncludedStreams cfgTwoStreams ∧
    resolveFreshDaily cfgTwoStreams
      { include_flag := none, stream_type := "web", use_fresh_daily := some false } = false := by
  constructor
  · exact (use_fresh_daily_defaulting cfgTwoStreams propsTwoStreams rfl).1
      ("p1", { source_dataset := "ds1",
               streams := [("s1", { include_flag := none, stream_type := "web",
                                    use_fresh_daily := some false }),
                           ("s2", { include_flag := none, stream_type := "app",
                                    use_fresh_daily := none })] })
      (by decide)
      ("s2", { include_flag := none, stream_type := "app", use_fresh_daily := none })
      (by decide) (by decide)
  · exact (use_fresh_daily_defaulting cfgTwoStreams propsTwoStreams rfl).2.2.1
      { include_flag := none, stream_type := "web", use_fresh_daily := some false } false rfl

/-- In advanced mode the effective type is computed from the included
streams by the two `any` probes. -/
theorem getEffectiveDataStreamType_advanced (cfg : Config)
    (props : List (String × PropertyCfg)) (hp : cfg.PROPERTIES_CONFIG = some props) :
    getEffectiveDataStreamType cfg =
      (if ((getIncludedStreams cfg).any fun s => s.stream_type = "web") &&
          ((getIncludedStreams cfg).any fun s => s.stream_type = "app") then "both"
       else if (getIncludedStreams cfg).any fun s => s.stream_type = "web" then "web"
       else if (getIncludedStreams cfg).any fun s => s.stream_type = "app" then "app"
       else "both") := by
  simp only [getEffectiveDataStreamType, hp]

/-- C8: in advanced mode the effective stream type is `both` when web and
app streams are both present among the included streams, the single
present kind when only one is, and `both` (without an error) when the
inclusion set is empty. -/
theorem effective_type_from_included_streams (cfg : Config)
    (props : List (String × PropertyCfg)) (hp : cfg.PROPERTIES_CONFIG = some props) :
    ((∃ x ∈ getIncludedStreams cfg, x.stream_type = "web") →
      (∃ x ∈ getIncludedStreams cfg, x.stream_type = "app") →
      getEffectiveDataStreamType cfg = "both") ∧
    ((∃ x ∈ getIncludedStreams cfg, x.stream_type = "web") →
      (¬ ∃ x ∈ getIncludedStreams cfg, x.stream_type = "app") →
      getEffectiveDataStreamType cfg = "web") ∧
    ((¬ ∃ x ∈ getIncludedStreams cfg, x.stream_type = "web") →
      (∃ x ∈ getIncludedStreams cfg, x.stream_type = "app") →
      getEffectiveDataStreamType cfg = "app") ∧
    (getIncludedStreams cfg = [] → getEffectiveDataStreamType cfg = "both") := by
  rw [getEffectiveDataStreamType_advanced cfg props hp]
  refine ⟨fun hw ha => ?_, fun hw ha => ?_, fun hw ha => ?_, fun hs => ?_⟩
  · have hw' : ((getIncludedStreams cfg).any fun s => s.stream_type = "web") = true := by
      simpa only [List.any_eq_true, decide_eq_true_eq] using hw
    have ha' : ((getIncludedStreams cfg).any fun s => s.stream_type = "app") = true := by
      simpa only [List.any_eq_true, decide_eq_true_eq] using ha
    simp [hw', ha']
  · have hw' : ((getIncludedStreams cfg).any fun s => s.stream_type = "web") = true := by
      simpa only [List.any_eq_true, decide_eq_true_eq] using hw
    have ha' : ((getIncludedStreams cfg).any fun s => s.stream_type = "app") = false := by
      rw [← Bool.not_eq_true]
      simpa only [List.any_eq_true, decide_eq_true_eq] using ha
    simp [hw', ha']
  · have hw' : ((getIncludedStreams cfg).any fun s => s.stream_type = "web") = false := by
      rw [← Bool.not_eq_true]
      simpa only [List.any_eq_true, decide_eq_true_eq] using hw
    have ha' : ((getIncludedStreams cfg).any fun s => s.stream_type = "app") = true := by
      simpa only [List.any_eq_true, decide_eq_true_eq] using ha
    simp [hw', ha']
  · simp [hs]

/-- Witness for C8: the fixture has one web and one app stream, so the
effective type is `both`. -/
theorem effective_type_from_included_streams_witness :
    getEffectiveDataStreamType cfgTwoStreams = "both" :=
  (effective_type_from_included_streams cfgTwoStreams propsTwoStreams rfl).1
    (by decide) (by decide)

/-- A supported declared type selects exactly the claim-side value slot. -/
theorem valueFieldFor_of_supported (t : String) (h : supportedType t = true) :
    valueFieldFor t = some (slotFor t) := by
  unfold supportedType at h
  simp only [Bool.or_eq_true, decide_eq_true_eq] at h
  unfold valueFieldFor slotFor
  rcases h with ((((h | h) | h) | h) | h) <;> simp [h]

/-- An unsupported declared type falls into the throwing `default:` arm. -/
theorem valueFieldFor_of_unsupported (t : String) (h : supportedType t = false) :
    valueFieldFor t = none := by
  unfold supportedType at h
  simp only [Bool.or_eq_false_iff, decide_eq_false_iff_not] at h
  obtain ⟨⟨⟨⟨h1, h2⟩, h3⟩, h4⟩, h5⟩ := h
  unfold valueFieldFor
  simp [h1, h2, h3, h4, h5]

/-- C4: on a parameter array whose types are all supported, the extraction
generator succeeds with exactly one field expression per input parameter,
in input order, each keyed by and aliased to the parameter's name with
the slot selected by its declared type; the empty array yields an empty
result rather than an error. -/
theorem extract_params_order_totality (paramsArray : List Param) (sourceArray : String)
    (h : ∀ p ∈ paramsArray, supportedType p.type = true) :
    extractParamsSQLList paramsArray sourceArray =
      Except.ok (paramsArray.map fun p => paramFieldExpr sourceArray p (slotFor p.type)) ∧
    (paramsArray.map fun p => paramFieldExpr sourceArray p (slotFor p.type)).length =
      paramsArray.length ∧
    extractParamsSQL [] sourceArray = Except.ok "" := by
  refine ⟨?_, by simp, rfl⟩
  induction paramsArray with
  | nil => rfl
  | cons p rest ih =>
      have hp := h p (List.mem_cons_self p rest)
      have hrest := ih fun q hq => h q (List.mem_cons_of_mem p hq)
      simp only [extractParamsSQLList, valueFieldFor_of_supported p.type hp, hrest,
        List.map_cons, Except.map]

/-- Witness for C4 on a three-parameter array covering all three slots. -/
theorem extract_params_order_totality_witness :
    extractParamsSQLList paramsThreeTypes "event_params" =
      Except.ok (paramsThreeTypes.map fun p =>
        paramFieldExpr "event_params" p (slotFor p.type)) ∧
    (paramsThreeTypes.map fun p =>
      paramFieldExpr "event_params" p (slotFor p.type)).length =
      paramsThreeTypes.length ∧
    extractParamsSQL [] "event_params" = Except.ok "" :=
  extract_params_order_totality paramsThreeTypes "event_params" (by decide)

/-- C6 counterexample: for the unsupported type `currency` the raised
message names the offending parameter (`price`) and its type, but does
not name the containing array — the array reference `event_params`
available to the generator does not occur in it, contradicting the claim
that the message names both the parameter and its containing array. -/
theorem extract_params_array_name_counterexample :
    extractParamsSQL [⟨"price", "currency", none⟩] "event_params" =
      Except.error "Unsupported parameter type: currency for parameter: price" ∧
    strHasSub "price" "Unsupported parameter type: currency for parameter: price" = true ∧
    strHasSub "currency" "Unsupported parameter type: currency for parameter: price" = true ∧
    strHasSub "event_params"
      "Unsupported parameter type: currency for parameter: price" = false := by
  exact ⟨rfl, by decide, by decide, by decide⟩

/-- C6 amended: an array containing an unsupported-typed parameter makes
the extraction generator raise an error naming the offending parameter
and its declared type (not the containing array), and no field list is
produced for any parameter of the array. -/
theorem extract_params_unsupported_raises (paramsArray : List Param) (sourceArray : String)
    (h : ∃ p ∈ paramsArray, supportedType p.type = false) :
    ∃ p ∈ paramsArray, supportedType p.type = false ∧
      extractParamsSQLList paramsArray sourceArray =
        Except.error ("Unsupported parameter type: " ++ p.type ++
          " for parameter: " ++ p.name) ∧
      ∀ fields : List String,
        extractParamsSQLList paramsArray sourceArray ≠ Except.ok fields := by
  induction paramsArray with
  | nil =>
      rcases h with ⟨p, hp, -⟩
      cases hp
  | cons p rest ih =>
      by_cases hp : supportedType p.type = true
      · have hrest : ∃ q ∈ rest, supportedType q.type = false := by
          rcases h with ⟨q, hq, hqf⟩
          rcases List.mem_cons.mp hq with rfl | hq'
          · rw [hp] at hqf; cases hqf
          · exact ⟨q, hq', hqf⟩
        obtain ⟨q, hq, hqf, herr, -⟩ := ih hrest
        have hE : extractParamsSQLList (p :: rest) sourceArray =
            Except.error ("Unsupported parameter type: " ++ q.type ++
              " for parameter: " ++ q.name) := by
          simp only [extractParamsSQLList, valueFieldFor_of_supported p.type hp, herr,
            Except.map]
        exact ⟨q, List.mem_cons_of_mem p hq, hqf, hE,
          fun fields hok => by rw [hE] at hok; cases hok⟩
      · have hp' : supportedType p.type = false := Bool.eq_false_iff.mpr hp
        have hE : extractParamsSQLList (p :: rest) sourceArray =
            Except.error ("Unsupported parameter type: " ++ p.type ++
              " for parameter: " ++ p.name) := by
          simp only [extractParamsSQLList, valueFieldFor_of_unsupported p.type hp']
        exact ⟨p, List.mem_cons_self p rest, hp', hE,
          fun fields hok => by rw [hE] at hok; cases hok⟩

/-- Witness for the amended C6 on a mixed array: the error names the first
unsupported parameter. -/
theorem extract_params_unsupported_raises_witness :
    ∃ p ∈ [(⟨"form_name", "string", none⟩ : Param), ⟨"price", "currency", none⟩],
      supportedType p.type = false ∧
      extractParamsSQLList [⟨"form_name", "string", none⟩, ⟨"price", "currency", none⟩]
          "event_params" =
        Except.error ("Unsupported parameter type: " ++ p.type ++
          " for parameter: " ++ p.name) ∧
      ∀ fields : List String,
        extractParamsSQLList [⟨"form_name", "string", none⟩, ⟨"price", "currency", none⟩]
          "event_params" ≠ Except.ok fields :=
  extract_params_unsupported_raises
    [⟨"form_name", "string", none⟩, ⟨"price", "currency", none⟩] "event_params"
    ⟨⟨"price", "currency", none⟩, by decide, by decide⟩

/-- Membership in a `Set.add` step. -/
theorem mem_insertUnique (l : List String) (x c : String) :
    c ∈ insertUnique l x ↔ c ∈ l ∨ c = x := by
  unfold insertUnique
  by_cases hx : x ∈ l
  · simp only [if_pos hx]
    constructor
    · exact Or.inl
    · rintro (h | rfl)
      · exact h
      · exact hx
  · simp [if_neg hx]

/-- A `Set.add` step preserves key distinctness. -/
theorem nodup_insertUnique (l : List String) (x : String) (h : l.Nodup) :
    (insertUnique l x).Nodup := by
  unfold insertUnique
  by_cases hx : x ∈ l
  · simpa [if_pos hx]
  · simp [if_neg hx, List.nodup_append, h, hx]

/-- Membership after folding `Set.add` over a list. -/
theorem mem_foldl_insertUnique (xs : List String) :
    ∀ (ks : List String) (c : String),
      c ∈ xs.foldl insertUnique ks ↔ c ∈ ks ∨ c ∈ xs := by
  induction xs with
  | nil => simp
  | cons x xs ih =>
      intro ks c
      rw [List.foldl_cons, ih, mem_insertUnique]
      constructor
      · rintro ((h | rfl) | h)
        · exact Or.inl h
        · exact Or.inr (List.mem_cons_self _ _)
        · exact Or.inr (List.mem_cons_of_mem _ h)
      · rintro (h | h)
        · exact Or.inl (Or.inl h)
        · rcases List.mem_cons.mp h with rfl | h'
          · exact Or.inl (Or.inr rfl)
          · exact Or.inr h'

/-- Folding `Set.add` preserves key distinctness. -/
theorem nodup_foldl_insertUnique (xs : List String) :
    ∀ ks : List String, ks.Nodup → (xs.foldl insertUnique ks).Nodup := by
  induction xs with
  | nil => exact fun ks h => h
  | cons x xs ih => exact fun ks h => ih _ (nodup_insertUnique ks x h)

/-- `extendKeys` is the `Set.add` fold over the truthy consolidated names. -/
theorem extendKeys_eq_foldl (ps : List Param) :
    ∀ ks : List String,
      extendKeys ks ps = (ps.filterMap truthyName).foldl insertUnique ks := by
  induction ps with
  | nil => intro ks; rfl
  | cons p ps ih =>
      intro ks
      unfold extendKeys at ih ⊢
      rw [List.foldl_cons, List.filterMap_cons]
      by_cases hp : truthyS p.consolidated_name
      · have h1 : truthyName p = some (p.consolidated_name.getD "") := by
          simp [truthyName, hp]
        have h2 : keyNameStep ks p = insertUnique ks (p.consolidated_name.getD "") := by
          simp [keyNameStep, hp]
        simp only [h1, h2, List.foldl_cons]
        exact ih _
      · have h1 : truthyName p = none := by simp [truthyName, hp]
        have h2 : keyNameStep ks p = ks := by simp [keyNameStep, hp]
        simp only [h1, h2]
        exact ih _

/-- Membership in `extendKeys`. -/
theorem mem_extendKeys (ps : List Param) (ks : List String) (c : String) :
    c ∈ extendKeys ks ps ↔ c ∈ ks ∨ c ∈ ps.filterMap truthyName := by
  rw [extendKeys_eq_foldl, mem_foldl_insertUnique]

/-- `extendKeys` preserves key distinctness. -/
theorem nodup_extendKeys (ps : List Param) (ks : List String) (h : ks.Nodup) :
    (extendKeys ks ps).Nodup := by
  rw [extendKeys_eq_foldl]
  exact nodup_foldl_insertUnique _ ks h

/-- The combined web-then-app key set is the insertion-ordered
deduplication of all declared truthy consolidated names. -/
theorem extendKeys_extendKeys (web app : List Param) :
    extendKeys (extendKeys [] web) app =
      setInsertionOrder (web.filterMap truthyName ++ app.filterMap truthyName) := by
  rw [extendKeys_eq_foldl, extendKeys_eq_foldl]
  unfold setInsertionOrder
  rw [List.foldl_append]

/-- A slot found by `lastSource` comes from a declared truthy name. -/
theorem mem_of_lastSource (ps : List Param) (c v : String)
    (h : lastSource ps c = some v) : c ∈ ps.filterMap truthyName := by
  induction ps with
  | nil => cases h
  | cons p ps ih =>
      rw [lastSource] at h
      rcases hr : lastSource ps c with _ | u
      · simp only [hr] at h
        by_cases hp : truthyName p = some c
        · exact List.mem_filterMap.mpr ⟨p, List.mem_cons_self p ps, hp⟩
        · rw [if_neg hp] at h; cases h
      · simp only [hr] at h
        obtain rfl : u = v := Option.some_inj.mp h
        rcases List.mem_filterMap.mp (ih hr) with ⟨q, hq, hqt⟩
        exact List.mem_filterMap.mpr ⟨q, List.mem_cons_of_mem p hq, hqt⟩

/-- A declared truthy name always has a last source. -/
theorem lastSource_isSome_of_mem (ps : List Param) (c : String)
    (h : c ∈ ps.filterMap truthyName) : (lastSource ps c).isSome := by
  induction ps with
  | nil => cases h
  | cons p ps ih =>
      rw [lastSource]
      rcases hr : lastSource ps c with _ | u
      · simp only [hr]
        rcases List.mem_filterMap.mp h with ⟨q, hq, hqt⟩
        rcases List.mem_cons.mp hq with rfl | hq'
        · rw [if_pos hqt]; rfl
        · have := ih (List.mem_filterMap.mpr ⟨q, hq', hqt⟩)
          rw [hr] at this; cases this
      · simp only [hr]
        rfl

/-- The value of `lastSource` is the name of some parameter of the side. -/
theorem lastSource_is_name (ps : List Param) (c v : String)
    (h : lastSource ps c = some v) : ∃ p ∈ ps, p.name = v := by
  induction ps with
  | nil => cases h
  | cons p ps ih =>
      rw [lastSource] at h
      rcases hr : lastSource ps c with _ | u
      · simp only [hr] at h
        by_cases hp : truthyName p = some c
        · rw [if_pos hp] at h
          exact ⟨p, List.mem_cons_self p ps, (Option.some_inj.mp h)⟩
        · rw [if_neg hp] at h; cases h
      · simp only [hr] at h
        obtain rfl : u = v := Option.some_inj.mp h
        obtain ⟨q, hq, hqv⟩ := ih hr
        exact ⟨q, List.mem_cons_of_mem p hq, hqv⟩

/-- An undeclared name has no last source. -/
theorem lastSource_eq_none (ps : List Param) (c : String)
    (h : c ∉ ps.filterMap truthyName) : lastSource ps c = none := by
  rcases hr : lastSource ps c with _ | v
  · rfl
  · exact absurd (mem_of_lastSource ps c v hr) h

/-- `setSide` on a map whose entries are a function of distinct keys:
an existing key is updated in place, a fresh key is appended. -/
theorem setSide_keyed (b : Bool) (ks : List String) (g : String → ConsolSources)
    (k v : String) (hnd : ks.Nodup) :
    setSide b (ks.map fun c => (c, g c)) k v =
      if k ∈ ks then ks.map fun c => (c, if c = k then updSide b (g c) v else g c)
      else (ks.map fun c => (c, g c)) ++ [(k, updSide b {} v)] := by
  induction ks with
  | nil => simp [setSide]
  | cons c ks ih =>
      obtain ⟨hc, hks⟩ := List.nodup_cons.mp hnd
      rw [List.map_cons, setSide]
      by_cases hck : c = k
      · subst hck
        simp only [if_pos rfl, List.mem_cons, true_or, if_true, List.map_cons]
        congr 1
        refine List.map_congr_left fun a ha => ?_
        have : a ≠ c := fun h => hc (h ▸ ha)
        simp [this]
      · rw [if_neg hck, ih hks]
        by_cases hk : k ∈ ks
        · have : k ∈ c :: ks := List.mem_cons_of_mem c hk
          simp only [if_pos hk, if_pos this, List.map_cons, if_neg hck]
        · have : k ∉ c :: ks := by
            intro hmem
            rcases List.mem_cons.mp hmem with h | h
            · exact hck h.symm
            · exact hk h
          simp only [if_neg hk, if_neg this, List.map_cons, List.cons_append]

/-- Prepending a consolidating parameter shifts the fallback of the
last-write-wins lookup. -/
theorem lastSource_cons_or (p : Param) (ps : List Param) (c : String)
    (o : Option String) (hp : truthyS p.consolidated_name = true) :
    (lastSource (p :: ps) c).or o =
      (lastSource ps c).or
        (if c = p.consolidated_name.getD "" then some p.name else o) := by
  rw [lastSource]
  rcases hr : lastSource ps c with _ | u
  · simp only [hr]
    by_cases hc : c = p.consolidated_name.getD ""
    · have ht : truthyName p = some c := by simp [truthyName, hp, hc]
      simp [ht, hc, Option.or]
    · have ht : truthyName p ≠ some c := by
        simp only [truthyName, hp, if_true]
        intro hcontra
        exact hc (Option.some_inj.mp hcontra).symm
      simp [if_neg ht, hc, Option.or]
  · simp only [hr]
    rfl

/-- Prepending a non-consolidating parameter leaves the lookup unchanged. -/
theorem lastSource_cons_skip (p : Param) (ps : List Param) (c : String)
    (hp : truthyS p.consolidated_name = false) :
    lastSource (p :: ps) c = lastSource ps c := by
  rw [lastSource]
  rcases hr : lastSource ps c with _ | u
  · simp only [hr]
    have ht : truthyName p ≠ some c := by simp [truthyName, hp]
    rw [if_neg ht]
  · simp only [hr]

/-- The web `forEach` pass of `CONSOLIDATE_PARAMS` over a keyed map:
web slots become last-write-wins over the pass, app slots are untouched,
and fresh names are appended in first-declaration order. -/
theorem foldl_consolStep_web (ps : List Param) :
    ∀ (ks : List String) (w a : String → Option String), ks.Nodup →
      (∀ c, c ∉ ks → w c = none ∧ a c = none) →
      ps.foldl (consolStep true) (ks.map fun c => (c, ⟨w c, a c⟩)) =
        (extendKeys ks ps).map fun c => (c, ⟨(lastSource ps c).or (w c), a c⟩) := by
  induction ps with
  | nil =>
      intro ks w a hnd h
      exact (List.map_congr_left fun c _ => rfl).symm ▸ rfl
  | cons p ps ih =>
      intro ks w a hnd h
      rw [List.foldl_cons]
      have hek0 : extendKeys ks (p :: ps) = extendKeys (keyNameStep ks p) ps := rfl
      by_cases hp : truthyS p.consolidated_name
      · have hstep : consolStep true (ks.map fun c => (c, ⟨w c, a c⟩)) p =
            setSide true (ks.map fun c => (c, ⟨w c, a c⟩))
              (p.consolidated_name.getD "") p.name := by
          simp [consolStep, hp]
        have hkn : keyNameStep ks p = insertUnique ks (p.consolidated_name.getD "") := by
          simp [keyNameStep, hp]
        rw [hstep, setSide_keyed true ks _ _ p.name hnd]
        by_cases hn : (p.consolidated_name.getD "") ∈ ks
        · rw [if_pos hn]
          have hmap : (ks.map fun c =>
              (c, if c = p.consolidated_name.getD ""
                  then updSide true ⟨w c, a c⟩ p.name else ⟨w c, a c⟩)) =
              ks.map fun c =>
                (c, ⟨(fun x => if x = p.consolidated_name.getD ""
                      then some p.name else w x) c, a c⟩) := by
            refine List.map_congr_left fun c _ => ?_
            by_cases hcn : c = p.consolidated_name.getD "" <;> simp [hcn, updSide]
          have hw' : ∀ c, c ∉ ks →
              (fun x => if x = p.consolidated_name.getD ""
               then some p.name else w x) c = none ∧ a c = none := by
            intro c hc
            have hcn : c ≠ p.consolidated_name.getD "" := fun hEq => hc (hEq ▸ hn)
            exact ⟨by simp [hcn, (h c hc).1], (h c hc).2⟩
          rw [hmap, ih ks _ a hnd hw']
          rw [hek0, hkn]
          have hiu : insertUnique ks (p.consolidated_name.getD "") = ks := by
            simp [insertUnique, hn]
          rw [hiu]
          refine List.map_congr_left fun c _ => ?_
          rw [lastSource_cons_or p ps c (w c) hp]
        · rw [if_neg hn]
          have han : a (p.consolidated_name.getD "") = none := (h _ hn).2
          have happ : (ks.map fun c => (c, (⟨w c, a c⟩ : ConsolSources))) ++
              [(p.consolidated_name.getD "", updSide true {} p.name)] =
              (ks ++ [p.consolidated_name.getD ""]).map fun c =>
                (c, ⟨(fun x => if x = p.consolidated_name.getD ""
                      then some p.name else w x) c, a c⟩) := by
            rw [List.map_append]
            congr 1
            · refine List.map_congr_left fun c hc => ?_
              have hcn : c ≠ p.consolidated_name.getD "" := fun hEq => hn (hEq ▸ hc)
              simp [hcn]
            · simp [updSide, han]
          have hnd' : (ks ++ [p.consolidated_name.getD ""]).Nodup := by
            simp [List.nodup_append, hnd, hn]
          have hw' : ∀ c, c ∉ ks ++ [p.consolidated_name.getD ""] →
              (fun x => if x = p.consolidated_name.getD ""
               then some p.name else w x) c = none ∧ a c = none := by
            intro c hc
            rw [List.mem_append] at hc
            push_neg at hc
            have hcn : c ≠ p.consolidated_name.getD "" := by
              intro hEq
              exact hc.2 (hEq ▸ List.mem_cons_self _ _)
            exact ⟨by simp [hcn, (h c hc.1).1], (h c hc.1).2⟩
          rw [happ, ih (ks ++ [p.consolidated_name.getD ""]) _ a hnd' hw']
          rw [hek0, hkn]
          have hiu : insertUnique ks (p.consolidated_name.getD "") =
              ks ++ [p.consolidated_name.getD ""] := by
            simp [insertUnique, hn]
          rw [hiu]
          refine List.map_congr_left fun c _ => ?_
          rw [lastSource_cons_or p ps c (w c) hp]
      · have hp' : truthyS p.consolidated_name = false := Bool.eq_false_iff.mpr hp
        have hstep : consolStep true (ks.map fun c => (c, ⟨w c, a c⟩)) p =
            ks.map fun c => (c, ⟨w c, a c⟩) := by
          simp [consolStep, hp]
        have hkn : keyNameStep ks p = ks := by simp [keyNameStep, hp]
        rw [hstep, ih ks w a hnd h, hek0, hkn]
        refine List.map_congr_left fun c _ => ?_
        rw [lastSource_cons_skip p ps c hp']

/-- The app `forEach` pass of `CONSOLIDATE_PARAMS` over a keyed map:
app slots become last-write-wins over the pass, web slots are untouched,
and fresh names are appended in first-declaration order. -/
theorem foldl_consolStep_app (ps : List Param) :
    ∀ (ks : List String) (w a : String → Option String), ks.Nodup →
      (∀ c, c ∉ ks → w c = none ∧ a c = none) →
      ps.foldl (consolStep false) (ks.map fun c => (c, ⟨w c, a c⟩)) =
        (extendKeys ks ps).map fun c => (c, ⟨w c, (lastSource ps c).or (a c)⟩) := by
  induction ps with
  | nil =>
      intro ks w a hnd h
      exact (List.map_congr_left fun c _ => rfl).symm ▸ rfl
  | cons p ps ih =>
      intro ks w a hnd h
      rw [List.foldl_cons]
      have hek0 : extendKeys ks (p :: ps) = extendKeys (keyNameStep ks p) ps := rfl
      by_cases hp : truthyS p.consolidated_name
      · have hstep : consolStep false (ks.map fun c => (c, ⟨w c, a c⟩)) p =
            setSide false (ks.map fun c => (c, ⟨w c, a c⟩))
              (p.consolidated_name.getD "") p.name := by
          simp [consolStep, hp]
        have hkn : keyNameStep ks p = insertUnique ks (p.consolidated_name.getD "") := by
          simp [keyNameStep, hp]
        rw [hstep, setSide_keyed false ks _ _ p.name hnd]
        by_cases hn : (p.consolidated_name.getD "") ∈ ks
        · rw [if_pos hn]
          have hmap : (ks.map fun c =>
              (c, if c = p.consolidated_name.getD ""
                  then updSide false ⟨w c, a c⟩ p.name else ⟨w c, a c⟩)) =
              ks.map fun c =>
                (c, ⟨w c, (fun x => if x = p.consolidated_name.getD ""
                      then some p.name else a x) c⟩) := by
            refine List.map_congr_left fun c _ => ?_
            by_cases hcn : c = p.consolidated_name.getD "" <;> simp [hcn, updSide]
          have ha' : ∀ c, c ∉ ks →
              w c = none ∧ (fun x => if x = p.consolidated_name.getD ""
               then some p.name else a x) c = none := by
            intro c hc
            have hcn : c ≠ p.consolidated_name.getD "" := fun hEq => hc (hEq ▸ hn)
            exact ⟨(h c hc).1, by simp [hcn, (h c hc).2]⟩
          rw [hmap, ih ks w _ hnd ha']
          rw [hek0, hkn]
          have hiu : insertUnique ks (p.consolidated_name.getD "") = ks := by
            simp [insertUnique, hn]
          rw [hiu]
          refine List.map_congr_left fun c _ => ?_
          rw [lastSource_cons_or p ps c (a c) hp]
        · rw [if_neg hn]
          have hwn : w (p.consolidated_name.getD "") = none := (h _ hn).1
          have happ : (ks.map fun c => (c, (⟨w c, a c⟩ : ConsolSources))) ++
              [(p.consolidated_name.getD "", updSide false {} p.name)] =
              (ks ++ [p.consolidated_name.getD ""]).map fun c =>
                (c, ⟨w c, (fun x => if x = p.consolidated_name.getD ""
                      then some p.name else a x) c⟩) := by
            rw [List.map_append]
            congr 1
            · refine List.map_congr_left fun c hc => ?_
              have hcn : c ≠ p.consolidated_name.getD "" := fun hEq => hn (hEq ▸ hc)
              simp [hcn]
            · simp [updSide, hwn]
          have hnd' : (ks ++ [p.consolidated_name.getD ""]).Nodup := by
            simp [List.nodup_append, hnd, hn]
          have ha' : ∀ c, c ∉ ks ++ [p.consolidated_name.getD ""] →
              w c = none ∧ (fun x => if x = p.consolidated_name.getD ""
               then some p.name else a x) c = none := by
            intro c hc
            rw [List.mem_append] at hc
            push_neg at hc
            have hcn : c ≠ p.consolidated_name.getD "" := by
              intro hEq
              exact hc.2 (hEq ▸ List.mem_cons_self _ _)
            exact ⟨(h c hc.1).1, by simp [hcn, (h c hc.1).2]⟩
          rw [happ, ih (ks ++ [p.consolidated_name.getD ""]) w _ hnd' ha']
          rw [hek0, hkn]
          have hiu : insertUnique ks (p.consolidated_name.getD "") =
              ks ++ [p.consolidated_name.getD ""] := by
            simp [insertUnique, hn]
          rw [hiu]
          refine List.map_congr_left fun c _ => ?_
          rw [lastSource_cons_or p ps c (a c) hp]
      · have hp' : truthyS p.consolidated_name = false := Bool.eq_false_iff.mpr hp
        have hstep : consolStep false (ks.map fun c => (c, ⟨w c, a c⟩)) p =
            ks.map fun c => (c, ⟨w c, a c⟩) := by
          simp [consolStep, hp]
        have hkn : keyNameStep ks p = ks := by simp [keyNameStep, hp]
        rw [hstep, ih ks w a hnd h, hek0, hkn]
        refine List.map_congr_left fun c _ => ?_
        rw [lastSource_cons_skip p ps c hp']

/-- The consolidation map is exactly one entry per distinct declared
consolidated name, in first-declaration order (web array first), holding
the last web-side and app-side declaring parameter names. -/
theorem buildConsolidationMap_eq (cfg : Config) :
    buildConsolidationMap cfg =
      (consolidatedNamesList cfg).map fun c =>
        (c, ⟨lastSource cfg.WEB_PARAMS_ARRAY c, lastSource cfg.APP_PARAMS_ARRAY c⟩) := by
  have hweb := foldl_consolStep_web cfg.WEB_PARAMS_ARRAY []
    (fun _ => none) (fun _ => none) List.nodup_nil (fun c _ => ⟨rfl, rfl⟩)
  rw [List.map_nil] at hweb
  have hweb' : cfg.WEB_PARAMS_ARRAY.foldl (consolStep true) [] =
      (extendKeys [] cfg.WEB_PARAMS_ARRAY).map fun c =>
        (c, ⟨lastSource cfg.WEB_PARAMS_ARRAY c, none⟩) := by
    rw [hweb]
    refine List.map_congr_left fun c _ => ?_
    simp
  have happ := foldl_consolStep_app cfg.APP_PARAMS_ARRAY
    (extendKeys [] cfg.WEB_PARAMS_ARRAY)
    (fun c => lastSource cfg.WEB_PARAMS_ARRAY c) (fun _ => none)
    (nodup_extendKeys _ _ List.nodup_nil)
    (fun c hc =>
      ⟨lastSource_eq_none _ _ fun hmem => hc ((mem_extendKeys _ _ c).mpr (Or.inr hmem)),
        rfl⟩)
  simp only [] at happ
  unfold buildConsolidationMap
  rw [hweb', happ, extendKeys_extendKeys]
  refine List.map_congr_left fun c _ => ?_
  simp

/-- The distinct consolidated names are insertion-order deduplicated. -/
theorem consolidatedNamesList_nodup (cfg : Config) :
    (consolidatedNamesList cfg).Nodup :=
  nodup_foldl_insertUnique _ [] List.nodup_nil

/-- Membership in the distinct consolidated names. -/
theorem mem_consolidatedNamesList (cfg : Config) (c : String) :
    c ∈ consolidatedNamesList cfg ↔
      ∃ p ∈ cfg.WEB_PARAMS_ARRAY ++ cfg.APP_PARAMS_ARRAY, truthyName p = some c := by
  unfold consolidatedNamesList setInsertionOrder
  rw [mem_foldl_insertUnique]
  simp only [List.not_mem_nil, false_or, List.mem_append, List.mem_filterMap]
  constructor
  · rintro (⟨p, hp, ht⟩ | ⟨p, hp, ht⟩)
    · exact ⟨p, Or.inl hp, ht⟩
    · exact ⟨p, Or.inr hp, ht⟩
  · rintro ⟨p, hp | hp, ht⟩
    · exact Or.inl ⟨p, hp, ht⟩
    · exact Or.inr ⟨p, hp, ht⟩

/-- C5: with consolidation enabled, `CONSOLIDATE_PARAMS` emits exactly one
field per distinct consolidated name declared across the web and app
arrays, in first-declaration order, each a coalesce of the web-side
source (listed first) and the app-side source, degenerating to a
single-source coalesce when only one side declares the name; parameters
without a consolidated name contribute nothing. -/
theorem consolidate_params_one_field_per_name (cfg : Config)
    (heff : getEffectiveDataStreamType cfg = "both")
    (hflag : cfg.CONSOLIDATE_WEB_APP_PARAMS = true)
    (hnames : ∀ p ∈ cfg.WEB_PARAMS_ARRAY ++ cfg.APP_PARAMS_ARRAY, p.name ≠ "") :
    (buildConsolidationMap cfg).map Prod.fst = consolidatedNamesList cfg ∧
    (consolidatedNamesList cfg).Nodup ∧
    (∀ c, c ∈ consolidatedNamesList cfg ↔
      ∃ p ∈ cfg.WEB_PARAMS_ARRAY ++ cfg.APP_PARAMS_ARRAY, truthyName p = some c) ∧
    CONSOLIDATE_PARAMS cfg =
      String.intercalate ",\n        "
        ((consolidatedNamesList cfg).map fun c =>
          "COALESCE(" ++
            String.intercalate ", "
              ((lastSource cfg.WEB_PARAMS_ARRAY c).toList ++
                (lastSource cfg.APP_PARAMS_ARRAY c).toList) ++ ") AS " ++ c) ∧
    (∀ c ∈ consolidatedNamesList cfg,
      (lastSource cfg.WEB_PARAMS_ARRAY c).isSome ∨
        (lastSource cfg.APP_PARAMS_ARRAY c).isSome) := by
  have hrender : ∀ c ∈ consolidatedNamesList cfg,
      renderConsolidation
        (c, ⟨lastSource cfg.WEB_PARAMS_ARRAY c, lastSource cfg.APP_PARAMS_ARRAY c⟩) =
      "COALESCE(" ++
        String.intercalate ", "
          ((lastSource cfg.WEB_PARAMS_ARRAY c).toList ++
            (lastSource cfg.APP_PARAMS_ARRAY c).toList) ++ ") AS " ++ c := by
    intro c _
    have hw : (if truthyS (lastSource cfg.WEB_PARAMS_ARRAY c)
        then [(lastSource cfg.WEB_PARAMS_ARRAY c).getD ""] else []) =
        (lastSource cfg.WEB_PARAMS_ARRAY c).toList := by
      rcases hv : lastSource cfg.WEB_PARAMS_ARRAY c with _ | v
      · rfl
      · obtain ⟨p, hp, hpv⟩ := lastSource_is_name _ _ _ hv
        have : v ≠ "" := hpv ▸ hnames p (List.mem_append_left _ hp)
        simp [truthyS, this]
    have ha : (if truthyS (lastSource cfg.APP_PARAMS_ARRAY c)
        then [(lastSource cfg.APP_PARAMS_ARRAY c).getD ""] else []) =
        (lastSource cfg.APP_PARAMS_ARRAY c).toList := by
      rcases hv : lastSource cfg.APP_PARAMS_ARRAY c with _ | v
      · rfl
      · obtain ⟨p, hp, hpv⟩ := lastSource_is_name _ _ _ hv
        have : v ≠ "" := hpv ▸ hnames p (List.mem_append_right _ hp)
        simp [truthyS, this]
    unfold renderConsolidation
    rw [hw, ha]
  refine ⟨?_, consolidatedNamesList_nodup cfg, mem_consolidatedNamesList cfg, ?_, ?_⟩
  · rw [buildConsolidationMap_eq, List.map_map]
    exact List.map_id _
  · unfold CONSOLIDATE_PARAMS
    rw [if_neg (by simp [heff, hflag])]
    rw [buildConsolidationMap_eq, List.map_map]
    exact congrArg _ (List.map_congr_left hrender)
  · intro c hc
    obtain ⟨p, hp, ht⟩ := (mem_consolidatedNamesList cfg c).mp hc
    rcases List.mem_append.mp hp with h | h
    · exact Or.inl (lastSource_isSome_of_mem _ c (List.mem_filterMap.mpr ⟨p, h, ht⟩))
    · exact Or.inr (lastSource_isSome_of_mem _ c (List.mem_filterMap.mpr ⟨p, h, ht⟩))

/-- Witness for C5 on `cfgConsolidate`: three distinct consolidated names
in first-declaration order, the third app-only. -/
theorem consolidate_params_one_field_per_name_witness :
    (buildConsolidationMap cfgConsolidate).map Prod.fst =
      consolidatedNamesList cfgConsolidate ∧
    (consolidatedNamesList cfgConsolidate).Nodup ∧
    (∀ c, c ∈ consolidatedNamesList cfgConsolidate ↔
      ∃ p ∈ cfgConsolidate.WEB_PARAMS_ARRAY ++ cfgConsolidate.APP_PARAMS_ARRAY,
        truthyName p = some c) ∧
    CONSOLIDATE_PARAMS cfgConsolidate =
      String.intercalate ",\n        "
        ((consolidatedNamesList cfgConsolidate).map fun c =>
          "COALESCE(" ++
            String.intercalate ", "
              ((lastSource cfgConsolidate.WEB_PARAMS_ARRAY c).toList ++
                (lastSource cfgConsolidate.APP_PARAMS_ARRAY c).toList) ++ ") AS " ++ c) ∧
    (∀ c ∈ consolidatedNamesList cfgConsolidate,
      (lastSource cfgConsolidate.WEB_PARAMS_ARRAY c).isSome ∨
        (lastSource cfgConsolidate.APP_PARAMS_ARRAY c).isSome) :=
  consolidate_params_one_field_per_name cfgConsolidate (by decide) (by decide) (by decide)

/-- A plain push loop appends the coalesce-cast component of every
parameter, in order. -/
theorem foldl_keyPushStep (ps : List Param) :
    ∀ init : List KeyComp,
      ps.foldl keyPushStep init = init ++ ps.map fun p => KeyComp.coalesceCast p.name := by
  induction ps with
  | nil => intro init; simp
  | cons p ps ih =>
      intro init
      rw [List.foldl_cons, ih]
      simp [keyPushStep]

/-- The app pass of the consolidated branch: consolidated names go to the
set, the rest are pushed in catalog order. -/
theorem foldl_keyAppStep (ps : List Param) :
    ∀ (s : List String) (fs : List KeyComp),
      ps.foldl keyAppStep (s, fs) =
        (extendKeys s ps,
          fs ++ (ps.filter fun p => !truthyS p.consolidated_name).map
            fun p => KeyComp.coalesceCast p.name) := by
  induction ps with
  | nil => intro s fs; simp [extendKeys]
  | cons p ps ih =>
      intro s fs
      rw [List.foldl_cons]
      have hek0 : extendKeys s (p :: ps) = extendKeys (keyNameStep s p) ps := rfl
      by_cases hp : truthyS p.consolidated_name
      · have hstep : keyAppStep (s, fs) p =
            (insertUnique s (p.consolidated_name.getD ""), fs) := by
          simp [keyAppStep, hp]
        have hkn : keyNameStep s p = insertUnique s (p.consolidated_name.getD "") := by
          simp [keyNameStep, hp]
        rw [hstep, ih, hek0, hkn, List.filter_cons_of_neg (by simp [hp])]
      · have hstep : keyAppStep (s, fs) p =
            (s, fs ++ [KeyComp.coalesceCast p.name]) := by
          simp [keyAppStep, hp]
        have hkn : keyNameStep s p = s := by simp [keyNameStep, hp]
        rw [hstep, ih, hek0, hkn, List.filter_cons_of_pos (by simp [hp])]
        simp

/-- The accumulated key component array decomposes into the claimed
segment order. -/
theorem keyConcatFields_eq (cfg : Config) :
    keyConcatFields cfg = keyOrderSpec cfg := by
  by_cases hc : (getEffectiveDataStreamType cfg = "both" &&
      cfg.CONSOLIDATE_WEB_APP_PARAMS) = true
  · have hs : shouldConsolidateParams cfg = true := hc
    simp only [keyConcatFields, keyOrderSpec, webAppKeySegment, hc, hs, if_true,
      foldl_keyAppStep, foldl_keyPushStep, consolidatedNamesList,
      ← extendKeys_extendKeys]
    simp [List.append_assoc, extendKeys]
  · have hc' : (getEffectiveDataStreamType cfg = "both" &&
        cfg.CONSOLIDATE_WEB_APP_PARAMS) = false := Bool.eq_false_iff.mpr hc
    have hs : shouldConsolidateParams cfg = false := hc'
    simp only [keyConcatFields, keyOrderSpec, webAppKeySegment, hc', hs,
      Bool.false_eq_true, if_false, foldl_keyPushStep]
    by_cases h1 : (getEffectiveDataStreamType cfg = "web" ||
        getEffectiveDataStreamType cfg = "both") = true
    · by_cases h2 : (getEffectiveDataStreamType cfg = "app" ||
          getEffectiveDataStreamType cfg = "both") = true
      · simp [h1, h2, foldl_keyPushStep, List.append_assoc]
      · simp [h1, Bool.eq_false_iff.mpr h2, foldl_keyPushStep, List.append_assoc]
    · by_cases h2 : (getEffectiveDataStreamType cfg = "app" ||
          getEffectiveDataStreamType cfg = "both") = true
      · simp [Bool.eq_false_iff.mpr h1, h2, foldl_keyPushStep, List.append_assoc]
      · simp [Bool.eq_false_iff.mpr h1, Bool.eq_false_iff.mpr h2, foldl_keyPushStep]

/-- C1: for every configuration, the identity-key builder emits its
components exactly in the order: the four identity fields, the three
diagnostic dedup fields, the core parameters in catalog order, the
web/app segment (consolidated or separate per the consolidate flag), the
custom parameters in catalog order. -/
theorem generate_event_key_concat_order (cfg : Config) :
    keyConcatFields cfg = keyOrderSpec cfg ∧
    GENERATE_EVENT_KEY_CONCAT cfg =
      String.intercalate ", '-', " ((keyOrderSpec cfg).map KeyComp.render) :=
  ⟨keyConcatFields_eq cfg, by rw [GENERATE_EVENT_KEY_CONCAT, keyConcatFields_eq]⟩

/-- Every key component is the verbatim timestamp cast, the bare event
name, or a coalesce-to-empty form. -/
theorem keyComp_shape (cfg : Config) (c : KeyComp) (hc : c ∈ keyConcatFields cfg) :
    c = KeyComp.castStr "event_timestamp" ∨ c = KeyComp.bare "event_name" ∨
      ∃ g, c = KeyComp.coalesceStr g ∨ c = KeyComp.coalesceCast g := by
  rw [keyConcatFields_eq] at hc
  unfold keyOrderSpec at hc
  rcases List.mem_append.mp hc with h | h
  · rcases List.mem_append.mp h with h | h
    · rcases List.mem_append.mp h with h | h
      · simp only [keyBaseFields, List.mem_cons, List.not_mem_nil, or_false] at h
        rcases h with rfl | rfl | rfl | rfl | rfl | rfl | rfl
        · exact Or.inr (Or.inr ⟨"user_id", Or.inl rfl⟩)
        · exact Or.inr (Or.inr ⟨"ga_session_id", Or.inr rfl⟩)
        · exact Or.inl rfl
        · exact Or.inr (Or.inl rfl)
        · exact Or.inr (Or.inr ⟨"event_server_timestamp_offset", Or.inr rfl⟩)
        · exact Or.inr (Or.inr ⟨"batch_event_index", Or.inr rfl⟩)
        · exact Or.inr (Or.inr ⟨"event_bundle_sequence_id", Or.inr rfl⟩)
      · rcases List.mem_map.mp h with ⟨p, -, rfl⟩
        exact Or.inr (Or.inr ⟨p.name, Or.inr rfl⟩)
    · unfold webAppKeySegment at h
      split at h
      · rcases List.mem_append.mp h with h | h
        · rcases List.mem_map.mp h with ⟨p, -, rfl⟩
          exact Or.inr (Or.inr ⟨p.name, Or.inr rfl⟩)
        · rcases List.mem_map.mp h with ⟨n, -, rfl⟩
          exact Or.inr (Or.inr ⟨n, Or.inl rfl⟩)
      · rcases List.mem_append.mp h with h | h
        · split at h
          · rcases List.mem_map.mp h with ⟨p, -, rfl⟩
            exact Or.inr (Or.inr ⟨p.name, Or.inr rfl⟩)
          · cases h
        · split at h
          · rcases List.mem_map.mp h with ⟨p, -, rfl⟩
            exact Or.inr (Or.inr ⟨p.name, Or.inr rfl⟩)
          · cases h
  · rcases List.mem_map.mp h with ⟨p, -, rfl⟩
    exact Or.inr (Or.inr ⟨p.name, Or.inr rfl⟩)

/-- Equal maps over the same list agree on every member. -/
theorem map_eq_map_mem {α β : Type} (l : List α) (fn g : α → β)
    (h : l.map fn = l.map g) : ∀ x ∈ l, fn x = g x := by
  induction l with
  | nil => intro x hx; cases hx
  | cons a l ih =>
      rw [List.map_cons, List.map_cons, List.cons_eq_cons] at h
      intro x hx
      rcases List.mem_cons.mp hx with rfl | hx'
      · exact h.1
      · exact ih h.2 x hx'

/-- C3: the timestamp and name components are passed verbatim and every
other component is coalesced to the empty string, so no single null field
nulls out the key: two records differing only in one keyed optional
parameter being null evaluate to distinct component lists in which every
component is non-null. -/
theorem key_components_null_safety (cfg : Config) (r1 r2 : String → Option String)
    (f v : String)
    (h1 : r1 f = some v) (hv : v ≠ "") (h2 : r2 f = none)
    (hagree : ∀ g, g ≠ f → r1 g = r2 g)
    (hf : KeyComp.coalesceCast f ∈ keyConcatFields cfg ∨
      KeyComp.coalesceStr f ∈ keyConcatFields cfg)
    (ht : (r2 "event_timestamp").isSome) (hn : (r2 "event_name").isSome) :
    ((keyConcatFields cfg).map (evalKeyComp r1) ≠
      (keyConcatFields cfg).map (evalKeyComp r2)) ∧
    (∀ c ∈ keyConcatFields cfg,
      (evalKeyComp r1 c).isSome ∧ (evalKeyComp r2 c).isSome) ∧
    keyConcatFields cfg ≠ [] ∧
    KeyComp.castStr "event_timestamp" ∈ keyConcatFields cfg ∧
    KeyComp.bare "event_name" ∈ keyConcatFields cfg ∧
    (∀ c ∈ keyConcatFields cfg,
      c ≠ KeyComp.castStr "event_timestamp" → c ≠ KeyComp.bare "event_name" →
      ∀ r : String → Option String, (evalKeyComp r c).isSome) := by
  have hft : f ≠ "event_timestamp" := by
    intro hEq
    rw [hEq] at h2
    rw [h2] at ht
    cases ht
  have hfn : f ≠ "event_name" := by
    intro hEq
    rw [hEq] at h2
    rw [h2] at hn
    cases hn
  refine ⟨?_, ?_, ?_, ?_, ?_, ?_⟩
  · intro hEq
    have hpt := map_eq_map_mem _ _ _ hEq
    rcases hf with hmem | hmem
    · have hx := hpt _ hmem
      simp only [evalKeyComp, h1, h2] at hx
      exact hv (by simpa using hx)
    · have hx := hpt _ hmem
      simp only [evalKeyComp, h1, h2] at hx
      exact hv (by simpa using hx)
  · intro c hcmem
    rcases keyComp_shape cfg c hcmem with rfl | rfl | ⟨g, rfl | rfl⟩
    · constructor
      · rw [show evalKeyComp r1 (KeyComp.castStr "event_timestamp") =
            r1 "event_timestamp" from rfl]
        rw [hagree "event_timestamp" (Ne.symm hft)]
        exact ht
      · exact ht
    · constructor
      · rw [show evalKeyComp r1 (KeyComp.bare "event_name") = r1 "event_name" from rfl]
        rw [hagree "event_name" (Ne.symm hfn)]
        exact hn
      · exact hn
    · exact ⟨rfl, rfl⟩
    · exact ⟨rfl, rfl⟩
  · rw [keyConcatFields_eq]
    simp [keyOrderSpec, keyBaseFields]
  · rw [keyConcatFields_eq]
    unfold keyOrderSpec
    exact List.mem_append_left _ (List.mem_append_left _ (List.mem_append_left _
      (by simp [keyBaseFields])))
  · rw [keyConcatFields_eq]
    unfold keyOrderSpec
    exact List.mem_append_left _ (List.mem_append_left _ (List.mem_append_left _
      (by simp [keyBaseFields])))
  · intro c hcmem hcts hcname r
    rcases keyComp_shape cfg c hcmem with rfl | rfl | ⟨g, rfl | rfl⟩
    · exact absurd rfl hcts
    · exact absurd rfl hcname
    · rfl
    · rfl

/-- Witness for C3 on `cfgKeyFix`: records differing only in
`page_location` being null produce distinct all-non-null component
lists. -/
theorem key_components_null_safety_witness :
    ((keyConcatFields cfgKeyFix).map (evalKeyComp recWithLocation) ≠
      (keyConcatFields cfgKeyFix).map (evalKeyComp recNullLocation)) ∧
    (∀ c ∈ keyConcatFields cfgKeyFix,
      (evalKeyComp recWithLocation c).isSome ∧
        (evalKeyComp recNullLocation c).isSome) ∧
    keyConcatFields cfgKeyFix ≠ [] ∧
    KeyComp.castStr "event_timestamp" ∈ keyConcatFields cfgKeyFix ∧
    KeyComp.bare "event_name" ∈ keyConcatFields cfgKeyFix ∧
    (∀ c ∈ keyConcatFields cfgKeyFix,
      c ≠ KeyComp.castStr "event_timestamp" → c ≠ KeyComp.bare "event_name" →
      ∀ r : String → Option String, (evalKeyComp r c).isSome) :=
  key_components_null_safety cfgKeyFix recWithLocation recNullLocation
    "page_location" "https://example.com/"
    rfl (by decide) rfl
    (fun g hg => by simp [recWithLocation, recNullLocation, hg])
    (Or.inl (by decide))
    rfl rfl
